import Mathlib

/-!
Verification development for LayerScanner (ubxroot/LayerScanner), a
reconnaissance crawler for `.onion` hidden services.

The development shallowly embeds the crawl engine (`core/scanner.py`),
the link extractor (`core/parser.py`) and the relevant parts of Python's
`urllib.parse` library that they call.  Network interaction is modelled
by an oracle `net : String → FetchResult` mapping each URL to the
transport-level outcome of a GET request; HTML parsing (BeautifulSoup)
is modelled by oracles `soup : String → List String` (the `href`
attributes of the `<a href=...>` tags, in document order) and
`getTitle : String → Option String` (the stripped `<title>` text).
-/

namespace LayerScanner

/-! ### Character classes and small string utilities -/

/-- ASCII letter test, modelling Python's `str.isascii() and str.isalpha()`
on a single character. -/
def isAsciiAlpha (c : Char) : Bool :=
  (65 ≤ c.toNat && c.toNat ≤ 90) || (97 ≤ c.toNat && c.toNat ≤ 122)

/-- Membership in `urllib.parse.scheme_chars`
(ASCII letters, digits, `+`, `-`, `.`). -/
def isSchemeChar (c : Char) : Bool :=
  isAsciiAlpha c || (48 ≤ c.toNat && c.toNat ≤ 57) || c == '+' || c == '-' || c == '.'

/-- A character allowed inside a netloc: `_splitnetloc` scans up to the
first of `/`, `?`, `#`. -/
def netlocChar (c : Char) : Bool :=
  c != '/' && c != '?' && c != '#'

/-- Python `s.rstrip('/')` on a character list: remove all trailing `/`. -/
def rstripSlashCore (l : List Char) : List Char :=
  (l.reverse.dropWhile (fun c => c == '/')).reverse

/-- Python `s.rstrip('/')`. -/
def pyRstripSlash (s : String) : String :=
  String.mk (rstripSlashCore s.data)

/-- Python `s.split(c, 1)` when `c` occurs, `(s, "")` otherwise: the pair
(text before the first `c`, text after it).  Matches the unconditional use
`if c in url: url, rest = url.split(c, 1)` because when `c` is absent the
second component is empty and the first is the whole input. -/
def splitOnFirstChar (c : Char) (l : List Char) : List Char × List Char :=
  (l.takeWhile (fun x => x != c), (l.dropWhile (fun x => x != c)).drop 1)

/-- Python `needle in haystack` on character lists (substring test). -/
def containsSubCore (haystack needle : List Char) : Bool :=
  haystack.tails.any (fun t => needle.isPrefixOf t)

/-- Python `needle in haystack` for strings. -/
def pyContains (haystack needle : String) : Bool :=
  containsSubCore haystack.data needle.data

/-! ### Model of `urllib.parse.urlsplit` / `urlparse`

The model follows CPython's `urlsplit` (3.11+): scheme extraction
(first `:` at a positive index, first character an ASCII letter, all
characters in `scheme_chars`, lowered), netloc extraction after a
leading `//` up to the first of `/?#`, then fragment split at the first
`#`, then query split at the first `?`.  `urlparse` additionally splits
the `params` component off the path for `uses_params` schemes
(`urljoin` is built on `urlsplit` and performs no such split).  The
WHATWG control-character stripping is omitted: no URL in this
development contains control characters. -/

structure Url where
  scheme : List Char
  netloc : List Char
  path : List Char
  query : List Char
  fragment : List Char
deriving DecidableEq, Repr

/-- Scheme extraction step of `urlsplit`: `some (scheme.lower, rest)`
when the input has a well-formed scheme followed by `:`, else `none`. -/
def splitSchemeCore (l : List Char) : Option (List Char × List Char) :=
  let pre := l.takeWhile (fun c => c != ':')
  if pre.length < l.length && !pre.isEmpty && pre.all isSchemeChar &&
      (match pre with | c :: _ => isAsciiAlpha c | [] => false) then
    some (pre.map Char.toLower, l.drop (pre.length + 1))
  else
    none

/-- Netloc extraction step of `urlsplit` (`_splitnetloc`): when
`url[:2] == '//'`, the netloc runs from position 2 to the first of
`/`, `?`, `#`. -/
def splitNetlocCore (l : List Char) : List Char × List Char :=
  if l.take 2 = ['/', '/'] then
    ((l.drop 2).takeWhile netlocChar, (l.drop 2).dropWhile netlocChar)
  else ([], l)

/-- The netloc/fragment/query/path splitting of `urlsplit` applied after
scheme extraction. -/
def urlsplitAfterScheme (scheme rest : List Char) : Url :=
  ⟨scheme,
   (splitNetlocCore rest).1,
   (splitOnFirstChar '?' (splitOnFirstChar '#' (splitNetlocCore rest).2).1).1,
   (splitOnFirstChar '?' (splitOnFirstChar '#' (splitNetlocCore rest).2).1).2,
   (splitOnFirstChar '#' (splitNetlocCore rest).2).2⟩

/-- Model of `urllib.parse.urlsplit(url, scheme=dflt)` on character lists. -/
def urlsplitCore (dflt l : List Char) : Url :=
  match splitSchemeCore l with
  | some p => urlsplitAfterScheme p.1 p.2
  | none => urlsplitAfterScheme dflt l

/-- Model of `urllib.parse.urlunsplit` on character lists. -/
def urlunsplitCore (u : Url) : List Char :=
  let url := u.path
  let url :=
    if !u.netloc.isEmpty || url.take 2 = ['/', '/'] then
      '/' :: '/' :: (u.netloc ++
        (if !url.isEmpty && url.head? != some '/' then '/' :: url else url))
    else url
  let url := if !u.scheme.isEmpty then u.scheme ++ ':' :: url else url
  let url := if !u.query.isEmpty then url ++ '?' :: u.query else url
  if !u.fragment.isEmpty then url ++ '#' :: u.fragment else url

/-- The scheme list `urllib.parse.uses_params` (CPython 3.11). -/
def uses_params : List (List Char) :=
  ["".data, "ftp".data, "hdl".data, "prospero".data, "http".data, "imap".data,
   "https".data, "shttp".data, "rtsp".data, "rtsps".data, "rtspu".data,
   "sip".data, "sips".data, "mms".data, "sftp".data, "tel".data]

/-- Model of `urllib.parse._splitparams(url)`: when the path contains a
`/`, split at the first `;` of the last segment (no split when the last
segment has no `;`); otherwise split at the first `;`.  The caller
(`urlparse`) invokes it only when `;` occurs in the path, so the
`find` returning -1 in CPython's slash-free branch is unreachable. -/
def _splitparams (url : List Char) : List Char × List Char :=
  if url.contains '/' then
    if (url.reverse.takeWhile (fun c => c != '/')).reverse.contains ';' then
      ((url.reverse.dropWhile (fun c => c != '/')).reverse ++
         (url.reverse.takeWhile (fun c => c != '/')).reverse.takeWhile (fun c => c != ';'),
       (((url.reverse.takeWhile (fun c => c != '/')).reverse.dropWhile
           (fun c => c != ';')).drop 1))
    else (url, [])
  else
    (url.takeWhile (fun c => c != ';'), (url.dropWhile (fun c => c != ';')).drop 1)

/-- Model of `urllib.parse.urlparse(url, scheme=dflt)` on character
lists: `urlsplit`, then for schemes in `uses_params` with `;` in the
path, the `params` component is split off the path.  The `params` value
itself is discarded here because the repository never reads it; `.path`
is the params-stripped path exactly as CPython's `urlparse` returns
it. -/
def urlparseCore (dflt l : List Char) : Url :=
  if uses_params.contains (urlsplitCore dflt l).scheme &&
      (urlsplitCore dflt l).path.contains ';' then
    { urlsplitCore dflt l with path := (_splitparams (urlsplitCore dflt l).path).1 }
  else urlsplitCore dflt l

/-- String-level `urlparse(url, scheme)` (the `params` component split
off the path for `uses_params` schemes and discarded, since the
repository never inspects it). -/
def urlparse (url scheme : String) : Url :=
  urlparseCore scheme.data url.data

/-- String-level `urlunparse`. -/
def urlunparse (u : Url) : String :=
  String.mk (urlunsplitCore u)

/-- The scheme list `urllib.parse.uses_relative`. -/
def uses_relative : List (List Char) :=
  ["".data, "ftp".data, "http".data, "gopher".data, "nntp".data, "imap".data,
   "wais".data, "file".data, "https".data, "shttp".data, "mms".data,
   "prospero".data, "rtsp".data, "rtspu".data, "sftp".data, "svn".data,
   "svn+ssh".data, "ws".data, "wss".data]

/-- The scheme list `urllib.parse.uses_netloc`. -/
def uses_netloc : List (List Char) :=
  ["".data, "ftp".data, "http".data, "gopher".data, "nntp".data, "telnet".data,
   "imap".data, "wais".data, "file".data, "mms".data, "https".data,
   "shttp".data, "snews".data, "prospero".data, "rtsp".data, "rtspu".data,
   "rsync".data, "svn".data, "svn+ssh".data, "sftp".data, "nfs".data,
   "git".data, "git+ssh".data, "ws".data, "wss".data]

/-- Segment resolution loop of `urljoin`: `..` pops, `.` is skipped,
anything else is appended. -/
def resolveSegments (segments : List (List Char)) : List (List Char) :=
  segments.foldl
    (fun acc seg =>
      if seg = ['.', '.'] then acc.dropLast
      else if seg = ['.'] then acc
      else acc ++ [seg])
    []

/-- Python `'/'.join(parts)` on character lists. -/
def joinSlash (parts : List (List Char)) : List Char :=
  match parts with
  | [] => []
  | p :: ps => ps.foldl (fun acc q => acc ++ '/' :: q) p

/-- Python `s.split('/')` on character lists: every `/` starts a new
(possibly empty) segment; the result is always non-empty. -/
def splitSlash (l : List Char) : List (List Char) :=
  l.foldr
    (fun c acc =>
      if c = '/' then [] :: acc
      else
        match acc with
        | [] => [[c]]
        | p :: ps => (c :: p) :: ps)
    [[]]

/-- Model of `urllib.parse.urljoin(base, url)` on character lists, following
CPython (RFC 3986 merge with dot-segment resolution), with `params`
folded into the path. -/
def urljoinCore (base url : List Char) : List Char :=
  if base.isEmpty then url
  else if url.isEmpty then base
  else
    let b := urlsplitCore [] base
    let u := urlsplitCore b.scheme url
    if u.scheme ≠ b.scheme || ¬ uses_relative.contains u.scheme then url
    else
      let netloc :=
        if uses_netloc.contains u.scheme then
          (if !u.netloc.isEmpty then u.netloc else b.netloc)
        else u.netloc
      if uses_netloc.contains u.scheme && !u.netloc.isEmpty then
        urlunsplitCore ⟨u.scheme, u.netloc, u.path, u.query, u.fragment⟩
      else if u.path.isEmpty then
        urlunsplitCore ⟨u.scheme, netloc, b.path,
          (if u.query.isEmpty then b.query else u.query), u.fragment⟩
      else
        let base_parts := splitSlash b.path
        let base_parts :=
          if base_parts.getLast? != some [] then base_parts.dropLast else base_parts
        let segments :=
          if u.path.head? = some '/' then splitSlash u.path
          else
            let segs := base_parts ++ splitSlash u.path
            match segs with
            | [] => []
            | s :: rest =>
              match rest.getLast? with
              | none => [s]
              | some lastSeg =>
                s :: (rest.dropLast.filter (fun x => !x.isEmpty)) ++ [lastSeg]
        let resolved := resolveSegments segments
        let resolved :=
          if segments.getLast? = some ['.', '.'] || segments.getLast? = some ['.'] then
            resolved ++ [[]]
          else resolved
        let joined := joinSlash resolved
        urlunsplitCore ⟨u.scheme, netloc,
          (if joined.isEmpty then ['/'] else joined), u.query, u.fragment⟩

/-- String-level `urljoin`. -/
def urljoin (base url : String) : String :=
  String.mk (urljoinCore base.data url.data)

/-! ### Model of `core/parser.py`

HTML parsing is delegated to BeautifulSoup in the source; the embedding
takes the list of `href` attribute values of the `<a href=...>` tags (in
document order) in place of the raw document. -/

/-- The rebuilt link of `core/parser.py` lines 36-37 on character lists:
`parsed_url.scheme + "://" + parsed_url.netloc + parsed_url.path`
(query and fragment dropped). -/
def cleanCore (p : Url) : List Char :=
  p.scheme ++ ':' :: '/' :: '/' :: (p.netloc ++ p.path)

/-- String-level rebuilt link of `core/parser.py` lines 36-37. -/
def clean_url (p : Url) : String :=
  String.mk (cleanCore p)

/-- Character-list form of the crawler's link canonicalization
(`core/parser.py` lines 29-38): parse with `urlparse` (which drops the
`params` component from the path), rebuild scheme://netloc+path, strip
trailing slashes. -/
def canonCore (l : List Char) : List Char :=
  rstripSlashCore (cleanCore (urlparseCore [] l))

/-- The retention test of `core/parser.py` lines 33 and 35: the resolved
link's netloc ends with `.onion`, equals the base netloc, and scheme and
netloc are truthy (non-empty). -/
def keepsLink (base_netloc : List Char) (p : Url) : Bool :=
  ".onion".data.isSuffixOf p.netloc && p.netloc == base_netloc &&
    !p.scheme.isEmpty && !p.netloc.isEmpty

/-- Model of `extract_onion_links(html_content, base_url)`
(`core/parser.py` lines 15-40), over the hrefs found in the document.
Each href is resolved with `urljoin`, parsed, filtered by `keepsLink`
and stored canonicalized (rebuilt without query/fragment, trailing
slashes stripped).  Python collects the links into a `set` and returns
`list(found_links)` in unspecified iteration order; the model
deduplicates the insertion sequence instead, so every theorem about the
result is membership-based. -/
def extract_onion_links (hrefs : List String) (base_url : String) : List String :=
  let base_netloc := (urlparse base_url "").netloc
  (hrefs.filterMap (fun href =>
    let p := urlparse (urljoin base_url href) ""
    if keepsLink base_netloc p then some (pyRstripSlash (clean_url p))
    else none)).dedup

/-- The canonicalization the crawler applies to every link (and the
spec's Canonical URL operation as realized by `core/parser.py` lines
29-38): parse, rebuild scheme://netloc+path (dropping query and
fragment), strip trailing slashes. -/
def canonicalize (u : String) : String :=
  pyRstripSlash (clean_url (urlparse u ""))

/-! ### Model of `core/scanner.py` -/

/-- An HTTP response as the scanner consumes it: `status_code`, the
`Server` header (absent when the server sent none), and `text`. -/
structure HttpResponse where
  status : Nat
  server : Option String
  body : String
deriving DecidableEq, Repr

/-- Transport-level outcome of `session.get(url, ...)`: one of the
exception classes caught in `_fetch_url_tor`, or a received response
(after redirects). -/
inductive FetchResult where
  | connectionError
  | timeoutError
  | requestError
  | otherError
  | response (r : HttpResponse)

/-- Model of `_fetch_url_tor` (`core/scanner.py` lines 28-49).
A transport fault returns `None`.  A received response goes through
`response.raise_for_status()`, which raises `requests.HTTPError` for
status codes in [400, 600); the raise is caught by the
`RequestException` handler, so such responses also return `None`.
Any other received response is returned. -/
def _fetch_url_tor (net : String → FetchResult) (url : String) : Option HttpResponse :=
  match net url with
  | .response r => if 400 ≤ r.status && r.status < 600 then none else some r
  | _ => none

/-- One findings-list record (`findings.append({...})`).  The `title`
value is `none` where Python stores `None`. -/
structure Finding where
  ftype : String
  url : String
  status_code : Nat
  title : Option String
  server_header : String
  description : String
deriving DecidableEq, Repr

/-- Python `x if x else dflt` for an optional string (both `None` and
the empty string fall back). -/
def truthyOr (o : Option String) (dflt : String) : String :=
  match o with
  | none => dflt
  | some t => if t = "" then dflt else t

/-- The Site Info finding (`core/scanner.py` lines 85-92). -/
def siteInfoFinding (getTitle : String → Option String) (onion_url : String)
    (r : HttpResponse) : Finding :=
  { ftype := "Site Info", url := onion_url, status_code := r.status,
    title := some (truthyOr (getTitle r.body) "N/A"),
    server_header := r.server.getD "N/A",
    description := "Initial site information." }

/-- The Page Info finding (`core/scanner.py` lines 112-119). -/
def pageInfoFinding (getTitle : String → Option String) (current_url : String)
    (current_depth : Nat) (r : HttpResponse) : Finding :=
  { ftype := "Page Info", url := current_url, status_code := r.status,
    title := some (truthyOr (getTitle r.body) "N/A"),
    server_header := r.server.getD "N/A",
    description := "Page details at depth " ++ toString current_depth ++ "." }

/-- The Exposed Path finding (`core/scanner.py` lines 150-161).  The
`title` field is `get_page_title(text)` (possibly `None`) when the body
is truthy, else the string N/A. -/
def exposedPathFinding (getTitle : String → Option String) (path full_path_url : String)
    (r : HttpResponse) : Finding :=
  { ftype := "Exposed Path", url := full_path_url, status_code := r.status,
    title := if r.body ≠ "" then getTitle r.body else some "N/A",
    server_header := r.server.getD "N/A",
    description :=
      if pyContains r.body "Index of /" then
        "Directory listing enabled at '" ++ path ++ "'."
      else
        "Common path '" ++ path ++ "' found." }

/-- Runtime errors the crawl can raise.  `core/scanner.py` line 127
evaluates `re.findall(...)`, but the module never imports or otherwise
binds the name `re` (its imports are requests, urllib.parse,
collections, typing, logging, rich, utils.config and core.parser), so
completing that branch raises `NameError: name 're' is not defined`,
modelled by `nameErrorRe`. -/
inductive ScanError where
  | nameErrorRe
deriving DecidableEq, Repr

/-- The mutable state of one `scan_onion_site` invocation.  `findings`,
`visited` and `queue` are the Python locals (the visited set is kept as
its insertion sequence; only membership is ever used).  `fetchLog` and
`enqueued` are ghost observation fields: every URL passed to
`_fetch_url_tor` and every URL ever placed into the frontier, in
order. -/
structure ScanState where
  findings : List Finding
  visited : List String
  queue : List (String × Nat)
  fetchLog : List String
  enqueued : List String
deriving DecidableEq, Repr

/-- The inputs of one `scan_onion_site` invocation: the network oracle,
the two HTML-parsing oracles, the target URL, the maximum depth and the
configured `common_paths`. -/
structure ScanParams where
  net : String → FetchResult
  soup : String → List String
  getTitle : String → Option String
  onion_url : String
  depth : Int
  common_paths : List String

/-- State after `core/scanner.py` lines 61-63: empty findings, empty
visited set, frontier seeded with `(onion_url.rstrip('/'), 0)`. -/
def initState (onion_url : String) : ScanState :=
  { findings := [], visited := [], queue := [(pyRstripSlash onion_url, 0)],
    fetchLog := [], enqueued := [pyRstripSlash onion_url] }

/-- The robots.txt probe (`core/scanner.py` lines 121-142), executed
when the dequeued URL is the stripped base URL.  When the probe answers
with status 200 the source evaluates `re.findall` with `re` unbound,
raising `NameError` before any finding can be appended; every other
outcome only prints console text. -/
def robotsProbe (P : ScanParams) (current_url : String) (st : ScanState) :
    Except ScanError ScanState :=
  if current_url = pyRstripSlash P.onion_url then
    let robots_url := urljoin current_url "/robots.txt"
    let st1 := { st with fetchLog := st.fetchLog ++ [robots_url] }
    match _fetch_url_tor P.net robots_url with
    | some rr =>
      if rr.status = 200 then Except.error ScanError.nameErrorRe
      else Except.ok st1
    | none => Except.ok st1
  else Except.ok st

/-- The common-path probe (`core/scanner.py` lines 144-165), executed
when the dequeued URL is the stripped base URL: each configured path is
resolved against the current URL and fetched; a 200 answer appends one
Exposed Path finding. -/
def commonPathProbe (P : ScanParams) (current_url : String) (st : ScanState) : ScanState :=
  if current_url = pyRstripSlash P.onion_url then
    P.common_paths.foldl
      (fun stA path =>
        let full_path_url := urljoin current_url path
        let stB := { stA with fetchLog := stA.fetchLog ++ [full_path_url] }
        match _fetch_url_tor P.net full_path_url with
        | some pr =>
          if pr.status = 200 then
            { stB with findings :=
                stB.findings ++ [exposedPathFinding P.getTitle path full_path_url pr] }
          else stB
        | none => stB)
      st
  else st

/-- The link-queueing step (`core/scanner.py` lines 168-175): when depth
budget remains, each extracted link not yet visited is appended to the
frontier at depth `current_depth + 1`. -/
def queueLinks (P : ScanParams) (current_url : String) (current_depth : Nat)
    (body : String) (st : ScanState) : ScanState :=
  if (current_depth : Int) < P.depth then
    (extract_onion_links (P.soup body) current_url).foldl
      (fun stA link =>
        if link ∈ stA.visited then stA
        else
          { stA with queue := stA.queue ++ [(link, current_depth + 1)],
                     enqueued := stA.enqueued ++ [link] })
      st
  else st

/-- One iteration of the main crawling loop (`core/scanner.py` lines
96-177): dequeue, depth guard (`continue` when `current_depth > depth`),
visited guard (the body runs only for unvisited URLs), mark visited,
fetch, Page Info finding for non-base URLs, robots probe, common-path
probe, link extraction and enqueueing.  A fetch failure only skips the
rest of the body. -/
def scanIter (P : ScanParams) (st : ScanState) : Except ScanError ScanState :=
  match st.queue with
  | [] => Except.ok st
  | (current_url, current_depth) :: rest =>
    let st1 : ScanState := { st with queue := rest }
    if (current_depth : Int) > P.depth then Except.ok st1
    else if current_url ∈ st1.visited then Except.ok st1
    else
      let st2 := { st1 with visited := st1.visited ++ [current_url],
                            fetchLog := st1.fetchLog ++ [current_url] }
      match _fetch_url_tor P.net current_url with
      | none => Except.ok st2
      | some response =>
        let st3 :=
          if current_url ≠ P.onion_url then
            { st2 with findings :=
                st2.findings ++ [pageInfoFinding P.getTitle current_url current_depth response] }
          else st2
        match robotsProbe P current_url st3 with
        | Except.error e => Except.error e
        | Except.ok st4 =>
          let st5 := commonPathProbe P current_url st4
          Except.ok (queueLinks P current_url current_depth response.body st5)

/-- The `while queue:` loop, driven by fuel.  Python runs the loop until
the frontier empties; the embedding bounds the number of iterations by
`fuel` and the theorems hold for every fuel, since every reachable crawl
empties its frontier after at most one iteration. -/
def scanRun (P : ScanParams) : Nat → ScanState → Except ScanError ScanState
  | 0, st => Except.ok st
  | fuel + 1, st =>
    if st.queue.isEmpty then Except.ok st
    else
      match scanIter P st with
      | Except.error e => Except.error e
      | Except.ok st2 => scanRun P fuel st2

/-- Model of `scan_onion_site` (`core/scanner.py` lines 51-180) up to
its final state: init (lines 61-63), initial connectivity fetch of the
base URL (line 74; on failure the function returns `[]` at line 78),
Site Info finding and `visited_urls.add(onion_url.rstrip('/'))` (lines
83-93), then the main loop. -/
def scanFinal (P : ScanParams) (fuel : Nat) : Except ScanError ScanState :=
  let st := initState P.onion_url
  let st1 := { st with fetchLog := st.fetchLog ++ [P.onion_url] }
  match _fetch_url_tor P.net P.onion_url with
  | none => Except.ok st1
  | some r =>
    let st2 := { st1 with
        findings := st1.findings ++ [siteInfoFinding P.getTitle P.onion_url r],
        visited := st1.visited ++ [pyRstripSlash P.onion_url] }
    scanRun P fuel st2

/-- The return value of `scan_onion_site`: its findings list (or the
raised `NameError`). -/
def scan_onion_site (P : ScanParams) (fuel : Nat) : Except ScanError (List Finding) :=
  (scanFinal P fuel).map ScanState.findings

/-! ### Concrete instances used by witnesses and counterexamples -/

/-- HTML oracle for documents without links. -/
def soupNone : String → List String := fun _ => []

/-- Title oracle for documents without a title element. -/
def titleNone : String → Option String := fun _ => none

/-- A network where every URL answers 200 with an empty body. -/
def netAll200 : String → FetchResult :=
  fun _ => FetchResult.response ⟨200, none, ""⟩

/-- A network where every connection fails at the transport level. -/
def netDown : String → FetchResult := fun _ => FetchResult.connectionError

/-- A robots.txt body listing two disallowed paths. -/
def robotsBody : String :=
  "User-agent: *\nDisallow: /admin\nDisallow: /secret\n"

/-- A network serving the base page and a robots.txt with Disallow
lines; everything else unreachable. -/
def netRobots : String → FetchResult := fun u =>
  if u = "http://abc.onion" then FetchResult.response ⟨200, some "nginx", "<html></html>"⟩
  else if u = "http://abc.onion/robots.txt" then FetchResult.response ⟨200, none, robotsBody⟩
  else FetchResult.connectionError

/-- A network serving the base page and an exposed `/.git/config`
answering 200; everything else unreachable. -/
def netExposed : String → FetchResult := fun u =>
  if u = "http://abc.onion" then FetchResult.response ⟨200, none, ""⟩
  else if u = "http://abc.onion/.git/config" then FetchResult.response ⟨200, none, "[core]"⟩
  else FetchResult.connectionError

/-- A network answering 404 everywhere. -/
def netAll404 : String → FetchResult :=
  fun _ => FetchResult.response ⟨404, none, "not found"⟩

/-! ## Supporting lemmas

### Characters: `Char.toLower` on scheme characters -/

theorem toNat_ofNatAux (n : Nat) (h : Nat.isValidChar n) :
    (Char.ofNatAux n h).toNat = n :=
  BitVec.toNat_ofNatLt n _

theorem toLower_toNat_of_upper {c : Char} (h : 65 ≤ c.toNat ∧ c.toNat ≤ 90) :
    (Char.toLower c).toNat = c.toNat + 32 := by
  unfold Char.toLower
  rw [if_pos ⟨h.1, h.2⟩]
  unfold Char.ofNat
  rw [dif_pos (Or.inl (by omega))]
  exact toNat_ofNatAux _ _

theorem toLower_eq_of_not_upper {c : Char} (h : ¬(65 ≤ c.toNat ∧ c.toNat ≤ 90)) :
    Char.toLower c = c := by
  unfold Char.toLower
  exact if_neg h

theorem toLower_idem (c : Char) : c.toLower.toLower = c.toLower := by
  by_cases h : 65 ≤ c.toNat ∧ c.toNat ≤ 90
  · have h1 := toLower_toNat_of_upper h
    exact toLower_eq_of_not_upper (by omega)
  · rw [toLower_eq_of_not_upper h]
    exact toLower_eq_of_not_upper h

theorem isAsciiAlpha_iff {c : Char} :
    isAsciiAlpha c = true ↔
      (65 ≤ c.toNat ∧ c.toNat ≤ 90) ∨ (97 ≤ c.toNat ∧ c.toNat ≤ 122) := by
  unfold isAsciiAlpha
  simp [Bool.or_eq_true, Bool.and_eq_true, decide_eq_true_eq]

theorem isAsciiAlpha_toLower {c : Char} (h : isAsciiAlpha c = true) :
    isAsciiAlpha c.toLower = true := by
  by_cases hu : 65 ≤ c.toNat ∧ c.toNat ≤ 90
  · have h1 := toLower_toNat_of_upper hu
    rw [isAsciiAlpha_iff]
    omega
  · rw [toLower_eq_of_not_upper hu]
    exact h

theorem isSchemeChar_iff {c : Char} :
    isSchemeChar c = true ↔
      isAsciiAlpha c = true ∨ (48 ≤ c.toNat ∧ c.toNat ≤ 57) ∨
        c = '+' ∨ c = '-' ∨ c = '.' := by
  unfold isSchemeChar
  simp only [Bool.or_eq_true, Bool.and_eq_true, decide_eq_true_eq, beq_iff_eq]
  tauto

theorem isSchemeChar_toLower {c : Char} (h : isSchemeChar c = true) :
    isSchemeChar c.toLower = true := by
  by_cases hu : 65 ≤ c.toNat ∧ c.toNat ≤ 90
  · have h1 := toLower_toNat_of_upper hu
    rw [isSchemeChar_iff]
    left
    rw [isAsciiAlpha_iff]
    omega
  · rw [toLower_eq_of_not_upper hu]
    exact h

theorem schemeChar_ne_colon {c : Char} (h : isSchemeChar c = true) : c ≠ ':' := by
  rintro rfl
  exact absurd h (by decide)

theorem schemeChar_ne_slash {c : Char} (h : isSchemeChar c = true) : c ≠ '/' := by
  rintro rfl
  exact absurd h (by decide)

theorem netlocChar_spec {c : Char} (h : netlocChar c = true) :
    c ≠ '/' ∧ c ≠ '?' ∧ c ≠ '#' := by
  unfold netlocChar at h
  simp only [Bool.and_eq_true, bne_iff_ne, ne_eq] at h
  exact ⟨h.1.1, h.1.2, h.2⟩

/-! ### Lists: `takeWhile`, `dropWhile`, `rstrip` -/

theorem takeWhile_append_all {p : Char → Bool} {a : List Char} (b : List Char)
    (h : ∀ x ∈ a, p x = true) :
    List.takeWhile p (a ++ b) = a ++ List.takeWhile p b := by
  rw [List.takeWhile_append, if_pos]
  rw [List.takeWhile_eq_self_iff.mpr h]

theorem dropWhile_append_all {p : Char → Bool} {a : List Char} (b : List Char)
    (h : ∀ x ∈ a, p x = true) :
    List.dropWhile p (a ++ b) = List.dropWhile p b := by
  rw [List.dropWhile_append, if_pos]
  rw [List.isEmpty_iff]
  exact List.dropWhile_eq_nil_iff.mpr h

theorem rstripSlashCore_append (a b : List Char) :
    rstripSlashCore (a ++ b) =
      if rstripSlashCore b = [] then rstripSlashCore a else a ++ rstripSlashCore b := by
  unfold rstripSlashCore
  rw [List.reverse_append, List.dropWhile_append]
  by_cases h : List.dropWhile (fun c => c == '/') b.reverse = []
  · rw [if_pos (by rw [List.isEmpty_iff]; exact h), if_pos (by rw [h]; rfl)]
  · rw [if_neg (by rw [List.isEmpty_iff]; exact h),
      if_neg (fun hc => h (by simpa using congrArg List.reverse hc)),
      List.reverse_append, List.reverse_reverse]

theorem rstripSlashCore_idem (l : List Char) :
    rstripSlashCore (rstripSlashCore l) = rstripSlashCore l := by
  unfold rstripSlashCore
  rw [List.reverse_reverse]
  congr 1
  induction l.reverse with
  | nil => rfl
  | cons a t ih =>
    by_cases h : (a == '/') = true
    · rw [List.dropWhile_cons, if_pos h]
      exact ih
    · rw [List.dropWhile_cons, if_neg h, List.dropWhile_cons, if_neg h]

theorem mem_rstripSlashCore {x : Char} {l : List Char} (h : x ∈ rstripSlashCore l) :
    x ∈ l := by
  unfold rstripSlashCore at h
  rw [List.mem_reverse] at h
  exact List.mem_reverse.mp ((List.dropWhile_sublist _).mem h)

theorem rstripSlashCore_last_not_slash (a : List Char) (x : Char) (hx : x ≠ '/') :
    rstripSlashCore (a ++ [x]) = a ++ [x] := by
  rw [rstripSlashCore_append, if_neg]
  · congr 1
    unfold rstripSlashCore
    rw [List.reverse_cons, List.reverse_nil, List.nil_append,
      List.dropWhile_cons_of_neg (by simpa using hx)]
    rfl
  · unfold rstripSlashCore
    rw [List.reverse_cons, List.reverse_nil, List.nil_append,
      List.dropWhile_cons_of_neg (by simpa using hx)]
    simp

theorem splitOnFirstChar_not_mem {c : Char} {l : List Char} (h : ∀ x ∈ l, x ≠ c) :
    splitOnFirstChar c l = (l, []) := by
  unfold splitOnFirstChar
  have hp : ∀ x ∈ l, (x != c) = true := fun x hx => bne_iff_ne.mpr (h x hx)
  rw [List.takeWhile_eq_self_iff.mpr hp, List.dropWhile_eq_nil_iff.mpr hp]
  rfl

/-! ### Parsing rebuilt canonical URLs -/

theorem splitSchemeCore_some (c : Char) (t rest : List Char)
    (hall : ∀ x ∈ c :: t, isSchemeChar x = true) (halpha : isAsciiAlpha c = true) :
    splitSchemeCore ((c :: t) ++ ':' :: rest) = some ((c :: t).map Char.toLower, rest) := by
  have hne : ∀ x ∈ c :: t, (x != ':') = true := fun x hx =>
    bne_iff_ne.mpr (schemeChar_ne_colon (hall x hx))
  have htw : List.takeWhile (fun x => x != ':') ((c :: t) ++ ':' :: rest) = c :: t := by
    rw [takeWhile_append_all _ hne, List.takeWhile_cons, if_neg (by simp)]
    rw [List.append_nil]
  have hdrop : ((c :: t) ++ ':' :: rest).drop ((c :: t).length + 1) = rest := by
    rw [List.append_cons]
    have hl : (c :: t).length + 1 = ((c :: t) ++ [':']).length := by
      rw [List.length_append]
      rfl
    rw [hl, List.drop_left]
  simp only [splitSchemeCore, htw, hdrop]
  rw [if_pos]
  simp only [Bool.and_eq_true, decide_eq_true_eq, List.all_eq_true]
  refine ⟨⟨⟨?_, ?_⟩, hall⟩, halpha⟩
  · simp only [List.length_append, List.length_cons]
    omega
  · simp

theorem splitNetlocCore_fst_mem (r : List Char) :
    ∀ x ∈ (splitNetlocCore r).1, netlocChar x = true := by
  intro x hx
  unfold splitNetlocCore at hx
  by_cases h : r.take 2 = ['/', '/']
  · rw [if_pos h] at hx
    exact List.mem_takeWhile_imp hx
  · rw [if_neg h] at hx
    cases hx

theorem urlsplitAfterScheme_path_mem (S rest : List Char) :
    ∀ x ∈ (urlsplitAfterScheme S rest).path, x ≠ '#' ∧ x ≠ '?' := by
  intro x hx
  simp only [urlsplitAfterScheme, splitOnFirstChar] at hx
  constructor
  · have hx2 := (List.takeWhile_sublist _).mem hx
    have h3 := List.mem_takeWhile_imp hx2
    exact bne_iff_ne.mp h3
  · have h4 := List.mem_takeWhile_imp hx
    exact bne_iff_ne.mp h4

theorem urlsplitCore_scheme_slashes (c : Char) (t T : List Char)
    (hall : ∀ x ∈ c :: t, isSchemeChar x = true) (halpha : isAsciiAlpha c = true)
    (hlow : (c :: t).map Char.toLower = c :: t)
    (hT : ∀ x ∈ T, x ≠ '#' ∧ x ≠ '?') :
    urlsplitCore [] ((c :: t) ++ ':' :: '/' :: '/' :: T) =
      ⟨c :: t, T.takeWhile netlocChar, T.dropWhile netlocChar, [], []⟩ := by
  unfold urlsplitCore
  rw [splitSchemeCore_some c t ('/' :: '/' :: T) hall halpha]
  simp only
  rw [hlow]
  unfold urlsplitAfterScheme
  have hnet : splitNetlocCore ('/' :: '/' :: T) =
      (T.takeWhile netlocChar, T.dropWhile netlocChar) := rfl
  rw [hnet]
  have hD1 : ∀ x ∈ T.dropWhile netlocChar, x ≠ '#' := fun x hx =>
    (hT x ((List.dropWhile_sublist _).mem hx)).1
  have hD2 : ∀ x ∈ T.dropWhile netlocChar, x ≠ '?' := fun x hx =>
    (hT x ((List.dropWhile_sublist _).mem hx)).2
  rw [splitOnFirstChar_not_mem hD1]
  simp only
  rw [splitOnFirstChar_not_mem hD2]

theorem urlsplitCore_scheme_colon (c : Char) (t : List Char)
    (hall : ∀ x ∈ c :: t, isSchemeChar x = true) (halpha : isAsciiAlpha c = true)
    (hlow : (c :: t).map Char.toLower = c :: t) :
    urlsplitCore [] ((c :: t) ++ [':']) = ⟨c :: t, [], [], [], []⟩ := by
  unfold urlsplitCore
  rw [show (c :: t) ++ [':'] = (c :: t) ++ ':' :: [] from rfl,
    splitSchemeCore_some c t [] hall halpha]
  simp only
  rw [hlow]
  rfl

/-! ### Idempotence of the crawler's canonicalization on scheme-carrying
URLs -/

theorem urlparseCore_scheme (dflt l : List Char) :
    (urlparseCore dflt l).scheme = (urlsplitCore dflt l).scheme := by
  unfold urlparseCore
  by_cases h : (uses_params.contains (urlsplitCore dflt l).scheme &&
      (urlsplitCore dflt l).path.contains ';') = true
  · rw [if_pos h]
  · rw [if_neg h]

theorem urlparseCore_netloc (dflt l : List Char) :
    (urlparseCore dflt l).netloc = (urlsplitCore dflt l).netloc := by
  unfold urlparseCore
  by_cases h : (uses_params.contains (urlsplitCore dflt l).scheme &&
      (urlsplitCore dflt l).path.contains ';') = true
  · rw [if_pos h]
  · rw [if_neg h]

theorem urlparseCore_no_semi (dflt l : List Char)
    (h : ';' ∉ (urlsplitCore dflt l).path) :
    urlparseCore dflt l = urlsplitCore dflt l := by
  unfold urlparseCore
  have hcond : ¬((uses_params.contains (urlsplitCore dflt l).scheme &&
      (urlsplitCore dflt l).path.contains ';') = true) := by
    intro hcontra
    rw [Bool.and_eq_true] at hcontra
    have h2 : ';' ∈ (urlsplitCore dflt l).path := by simpa using hcontra.2
    exact h h2
  rw [if_neg hcond]

theorem mem_splitparams_fst {u : List Char} {x : Char}
    (h : x ∈ (_splitparams u).1) : x ∈ u := by
  unfold _splitparams at h
  by_cases h1 : u.contains '/' = true
  · rw [if_pos h1] at h
    by_cases h2 : (u.reverse.takeWhile (fun c => c != '/')).reverse.contains ';' = true
    · rw [if_pos h2] at h
      rcases List.mem_append.mp h with h3 | h3
      · rw [List.mem_reverse] at h3
        exact List.mem_reverse.mp ((List.dropWhile_sublist _).mem h3)
      · have h4 := (List.takeWhile_sublist _).mem h3
        rw [List.mem_reverse] at h4
        exact List.mem_reverse.mp ((List.takeWhile_sublist _).mem h4)
    · rw [if_neg h2] at h
      exact h
  · rw [if_neg h1] at h
    exact (List.takeWhile_sublist _).mem h

theorem mem_urlparseCore_path {dflt l : List Char} {x : Char}
    (h : x ∈ (urlparseCore dflt l).path) : x ∈ (urlsplitCore dflt l).path := by
  unfold urlparseCore at h
  by_cases hc : (uses_params.contains (urlsplitCore dflt l).scheme &&
      (urlsplitCore dflt l).path.contains ';') = true
  · rw [if_pos hc] at h
    exact mem_splitparams_fst h
  · rw [if_neg hc] at h
    exact h

theorem rstripSlashCore_no_slash {l : List Char} (h : ∀ x ∈ l, x ≠ '/') :
    rstripSlashCore l = l := by
  rcases List.eq_nil_or_concat l with rfl | ⟨L, b, rfl⟩
  · rfl
  · rw [List.concat_eq_append]
    refine rstripSlashCore_last_not_slash L b (h b ?_)
    rw [List.concat_eq_append]
    simp

theorem canonCore_fixed (c : Char) (t N P : List Char)
    (hall : ∀ x ∈ c :: t, isSchemeChar x = true) (halpha : isAsciiAlpha c = true)
    (hlow : (c :: t).map Char.toLower = c :: t)
    (hN : ∀ x ∈ N, netlocChar x = true)
    (hP : ∀ x ∈ P, x ≠ '#' ∧ x ≠ '?')
    (hPs : ∀ x ∈ P, x ≠ ';') :
    canonCore (rstripSlashCore ((c :: t) ++ ':' :: '/' :: '/' :: (N ++ P))) =
      rstripSlashCore ((c :: t) ++ ':' :: '/' :: '/' :: (N ++ P)) := by
  have hT : ∀ x ∈ N ++ P, x ≠ '#' ∧ x ≠ '?' := by
    intro x hx
    rcases List.mem_append.mp hx with hx | hx
    · have hs := netlocChar_spec (hN x hx)
      exact ⟨hs.2.2, hs.2.1⟩
    · exact hP x hx
  have harr : (c :: t) ++ ':' :: '/' :: '/' :: (N ++ P) =
      ((c :: t) ++ [':']) ++ ('/' :: '/' :: (N ++ P)) := by
    rw [List.append_assoc]
    rfl
  have hsl : rstripSlashCore ('/' :: '/' :: (N ++ P)) =
      if rstripSlashCore (N ++ P) = [] then ([] : List Char)
      else '/' :: '/' :: rstripSlashCore (N ++ P) := by
    rw [show ('/' :: '/' :: (N ++ P)) = ['/', '/'] ++ (N ++ P) from rfl,
      rstripSlashCore_append]
    by_cases h : rstripSlashCore (N ++ P) = []
    · rw [if_pos h, if_pos h]
      rfl
    · rw [if_neg h, if_neg h]
      rfl
  rw [harr, rstripSlashCore_append, hsl]
  by_cases hR : rstripSlashCore (N ++ P) = []
  · rw [if_pos hR, if_pos rfl,
      rstripSlashCore_last_not_slash (c :: t) ':' (by decide)]
    unfold canonCore
    have hsc := urlsplitCore_scheme_colon c t hall halpha hlow
    have hpar : urlparseCore [] ((c :: t) ++ [':']) = ⟨c :: t, [], [], [], []⟩ := by
      rw [urlparseCore_no_semi [] ((c :: t) ++ [':']) (by rw [hsc]; simp), hsc]
    rw [hpar]
    unfold cleanCore
    simp only [List.nil_append]
    rw [show (c :: t) ++ [':', '/', '/'] = ((c :: t) ++ [':']) ++ ['/', '/'] by
        rw [List.append_assoc]
        rfl]
    rw [rstripSlashCore_append, if_pos (by decide),
      rstripSlashCore_last_not_slash (c :: t) ':' (by decide)]
  · rw [if_neg hR, if_neg (by simp)]
    have hRmem : ∀ x ∈ rstripSlashCore (N ++ P), x ≠ '#' ∧ x ≠ '?' := fun x hx =>
      hT x (mem_rstripSlashCore hx)
    have hassoc : ((c :: t) ++ [':']) ++ ('/' :: '/' :: rstripSlashCore (N ++ P)) =
        (c :: t) ++ ':' :: '/' :: '/' :: rstripSlashCore (N ++ P) := by
      rw [List.append_assoc]
      rfl
    rw [hassoc]
    unfold canonCore
    have hsplit := urlsplitCore_scheme_slashes c t (rstripSlashCore (N ++ P))
      hall halpha hlow hRmem
    have hP2sub : ∀ x ∈ (rstripSlashCore (N ++ P)).dropWhile netlocChar, x ∈ P := by
      intro x hx
      have hNs : rstripSlashCore N = N :=
        rstripSlashCore_no_slash (fun y hy => (netlocChar_spec (hN y hy)).1)
      rw [rstripSlashCore_append] at hx
      by_cases hp0 : rstripSlashCore P = []
      · rw [if_pos hp0, hNs, List.dropWhile_eq_nil_iff.mpr hN] at hx
        cases hx
      · rw [if_neg hp0, dropWhile_append_all _ hN] at hx
        exact mem_rstripSlashCore ((List.dropWhile_sublist _).mem hx)
    have hparA : urlparseCore [] ((c :: t) ++ ':' :: '/' :: '/' :: rstripSlashCore (N ++ P)) =
        ⟨c :: t, (rstripSlashCore (N ++ P)).takeWhile netlocChar,
          (rstripSlashCore (N ++ P)).dropWhile netlocChar, [], []⟩ := by
      rw [urlparseCore_no_semi _ _ (by
          rw [hsplit]
          intro hmem
          exact (hPs ';' (hP2sub ';' hmem)) rfl), hsplit]
    rw [hparA]
    unfold cleanCore
    simp only
    rw [List.takeWhile_append_dropWhile]
    rw [show (c :: t) ++ ':' :: '/' :: '/' :: rstripSlashCore (N ++ P) =
        ((c :: t) ++ [':', '/', '/']) ++ rstripSlashCore (N ++ P) by
      rw [List.append_assoc]
      rfl]
    rw [rstripSlashCore_append, rstripSlashCore_idem, if_neg hR, List.append_assoc]

theorem canonCore_idem (l : List Char) (h : (urlparseCore [] l).scheme ≠ [])
    (hsemi : ';' ∉ (urlparseCore [] l).path) :
    canonCore (canonCore l) = canonCore l := by
  cases hs : splitSchemeCore l with
  | none =>
    exfalso
    apply h
    rw [urlparseCore_scheme]
    unfold urlsplitCore
    rw [hs]
    rfl
  | some p =>
    have hguard : splitSchemeCore l = some p := hs
    unfold splitSchemeCore at hguard
    by_cases hc : (l.takeWhile (fun c => c != ':')).length < l.length ∧
        (l.takeWhile (fun c => c != ':')) ≠ [] ∧
        (l.takeWhile (fun c => c != ':')).all isSchemeChar = true ∧
        (match l.takeWhile (fun c => c != ':') with
         | c :: _ => isAsciiAlpha c
         | [] => false) = true
    case neg =>
      exfalso
      rw [if_neg] at hguard
      · exact Option.noConfusion hguard
      · simp only [Bool.and_eq_true, decide_eq_true_eq, List.all_eq_true, Bool.not_eq_true']
        intro hcontra
        apply hc
        refine ⟨hcontra.1.1.1, ?_, ?_, hcontra.2⟩
        · intro hnil
          have := hcontra.1.1.2
          rw [hnil] at this
          exact absurd this (by decide)
        · exact List.all_eq_true.mpr hcontra.1.2
    case pos =>
      obtain ⟨hlen, hnonnil, hallpre, hmatch⟩ := hc
      rw [if_pos (by
        simp only [Bool.and_eq_true, decide_eq_true_eq]
        refine ⟨⟨⟨hlen, ?_⟩, hallpre⟩, hmatch⟩
        simpa using hnonnil)] at hguard
      obtain ⟨c0, t0, hpre⟩ : ∃ c0 t0, l.takeWhile (fun c => c != ':') = c0 :: t0 := by
        cases hp : l.takeWhile (fun c => c != ':') with
        | nil => exact absurd hp hnonnil
        | cons a b => exact ⟨a, b, rfl⟩
      rw [hpre] at hguard hallpre hmatch
      have hallpre' : ∀ x ∈ c0 :: t0, isSchemeChar x = true := List.all_eq_true.mp hallpre
      have hurl : urlsplitCore [] l =
          urlsplitAfterScheme ((c0 :: t0).map Char.toLower) (l.drop ((c0 :: t0).length + 1)) := by
        unfold urlsplitCore
        rw [hs, ← Option.some.inj hguard]
      set rest := l.drop ((c0 :: t0).length + 1) with hrest
      have hmap : (c0 :: t0).map Char.toLower = c0.toLower :: t0.map Char.toLower :=
        List.map_cons _ _ _
      have hall' : ∀ x ∈ c0.toLower :: t0.map Char.toLower, isSchemeChar x = true := by
        intro x hx
        rw [← hmap] at hx
        obtain ⟨y, hy, hxy⟩ := List.mem_map.mp hx
        rw [← hxy]
        exact isSchemeChar_toLower (hallpre' y hy)
      have halpha' : isAsciiAlpha c0.toLower = true := isAsciiAlpha_toLower hmatch
      have hlow' : (c0.toLower :: t0.map Char.toLower).map Char.toLower =
          c0.toLower :: t0.map Char.toLower := by
        rw [← hmap, List.map_map]
        exact List.map_congr_left (fun x _ => toLower_idem x)
      have hN : ∀ x ∈ (splitNetlocCore rest).1, netlocChar x = true :=
        splitNetlocCore_fst_mem rest
      have hPq : ∀ x ∈ (urlparseCore [] l).path, x ≠ '#' ∧ x ≠ '?' := by
        intro x hx
        have hx2 := mem_urlparseCore_path hx
        rw [hurl] at hx2
        exact urlsplitAfterScheme_path_mem _ _ x hx2
      have hPsemi : ∀ x ∈ (urlparseCore [] l).path, x ≠ ';' := by
        intro x hx heq
        rw [heq] at hx
        exact hsemi hx
      have hcanon : canonCore l =
          rstripSlashCore ((c0.toLower :: t0.map Char.toLower) ++ ':' :: '/' :: '/' ::
            ((splitNetlocCore rest).1 ++ (urlparseCore [] l).path)) := by
        unfold canonCore cleanCore
        rw [urlparseCore_scheme, urlparseCore_netloc, hurl, hmap]
        rfl
      rw [hcanon]
      exact canonCore_fixed c0.toLower (t0.map Char.toLower)
        (splitNetlocCore rest).1 (urlparseCore [] l).path
        hall' halpha' hlow' hN hPq hPsemi

/-- String-level bridge: the crawler's canonicalization is `canonCore`
on the underlying character list. -/
theorem canonicalize_eq_core (u : String) :
    canonicalize u = String.mk (canonCore u.data) := rfl

/-! ### The crawl loop discards its seeded frontier entry -/

theorem scanIter_skip (P : ScanParams) (u : String) (d : Nat)
    (rest : List (String × Nat)) (f : List Finding) (v : List String)
    (log enq : List String) (hv : u ∈ v) :
    scanIter P ⟨f, v, (u, d) :: rest, log, enq⟩ = Except.ok ⟨f, v, rest, log, enq⟩ := by
  unfold scanIter
  simp only
  by_cases hd : (d : Int) > P.depth
  · rw [if_pos hd]
  · rw [if_neg hd, if_pos hv]

theorem scanRun_nil (P : ScanParams) (fuel : Nat) (st : ScanState)
    (hq : st.queue = []) : scanRun P fuel st = Except.ok st := by
  cases fuel with
  | zero => rfl
  | succ n =>
    unfold scanRun
    rw [if_pos (by rw [hq]; rfl)]

/-- Final state of a crawl whose initial connectivity fetch succeeds:
the single frontier entry is already visited when dequeued, so the loop
performs no fetch, emits no finding and enqueues nothing. -/
theorem scanFinal_success (P : ScanParams) (fuel : Nat) (r : HttpResponse)
    (h : _fetch_url_tor P.net P.onion_url = some r) :
    scanFinal P fuel = Except.ok
      { findings := [siteInfoFinding P.getTitle P.onion_url r],
        visited := [pyRstripSlash P.onion_url],
        queue := if fuel = 0 then [(pyRstripSlash P.onion_url, 0)] else [],
        fetchLog := [P.onion_url],
        enqueued := [pyRstripSlash P.onion_url] } := by
  unfold scanFinal initState
  rw [h]
  simp only [List.nil_append]
  cases fuel with
  | zero =>
    rw [if_pos rfl]
    rfl
  | succ n =>
    rw [if_neg (Nat.succ_ne_zero n)]
    unfold scanRun
    rw [if_neg (by exact Bool.noConfusion)]
    rw [scanIter_skip P (pyRstripSlash P.onion_url) 0 []
      [siteInfoFinding P.getTitle P.onion_url r] [pyRstripSlash P.onion_url]
      [P.onion_url] [pyRstripSlash P.onion_url] (List.mem_singleton.mpr rfl)]
    exact scanRun_nil P n _ rfl

/-- Final state of a crawl whose initial connectivity fetch fails:
`scan_onion_site` returns at line 78 with no finding, having attempted
exactly one fetch. -/
theorem scanFinal_failure (P : ScanParams) (fuel : Nat)
    (h : _fetch_url_tor P.net P.onion_url = none) :
    scanFinal P fuel = Except.ok
      { findings := [], visited := [], queue := [(pyRstripSlash P.onion_url, 0)],
        fetchLog := [P.onion_url], enqueued := [pyRstripSlash P.onion_url] } := by
  unfold scanFinal initState
  rw [h]
  rfl

/-! ## Claims -/

/-- C1: for every invocation of `scan_onion_site` whose initial
connectivity fetch of the base URL succeeds, the main crawl loop
discards its single seeded frontier entry (the trailing-slash-stripped
base URL is already in the visited set when it is dequeued), so for
every depth value, fuel and configuration the function returns exactly
one finding, the Site Info record, and never emits a Page Info,
Robots.txt Disallowed or Exposed Path finding. -/
theorem C1_site_info_only (P : ScanParams) (fuel : Nat) (r : HttpResponse)
    (h : _fetch_url_tor P.net P.onion_url = some r) :
    scan_onion_site P fuel = Except.ok [siteInfoFinding P.getTitle P.onion_url r] ∧
      (siteInfoFinding P.getTitle P.onion_url r).ftype = "Site Info" := by
  constructor
  · unfold scan_onion_site
    rw [scanFinal_success P fuel r h]
    rfl
  · rfl

theorem C1_site_info_only_witness :
    _fetch_url_tor netAll200 "http://abc.onion/" = some ⟨200, none, ""⟩ ∧
      (scan_onion_site ⟨netAll200, soupNone, titleNone, "http://abc.onion/", 2, ["/admin/"]⟩ 5 =
          Except.ok [siteInfoFinding titleNone "http://abc.onion/" ⟨200, none, ""⟩] ∧
        (siteInfoFinding titleNone "http://abc.onion/" ⟨200, none, ""⟩).ftype = "Site Info") :=
  ⟨rfl, C1_site_info_only ⟨netAll200, soupNone, titleNone, "http://abc.onion/", 2, ["/admin/"]⟩
    5 ⟨200, none, ""⟩ rfl⟩

/-- C2, evaluated at the failing input: the base page fetch succeeds and
the network serves a robots.txt whose body contains the lines
Disallow: /admin and Disallow: /secret with status 200, yet the crawl
never probes the robots URL at all (the fetch log holds only the base
URL, not one robots.txt probe as the claim requires) and emits no
Robots.txt Disallowed finding — the loop body that would probe it never
runs, and had it run, line 127 would raise NameError since `re` is
unbound in `core/scanner.py`. -/
theorem C2_robots_probe_never_runs :
    scanFinal ⟨netRobots, soupNone, titleNone, "http://abc.onion", 1, []⟩ 5 =
      Except.ok
        { findings := [siteInfoFinding titleNone "http://abc.onion"
            ⟨200, some "nginx", "<html></html>"⟩],
          visited := ["http://abc.onion"], queue := [],
          fetchLog := ["http://abc.onion"], enqueued := ["http://abc.onion"] } ∧
      netRobots "http://abc.onion/robots.txt" = FetchResult.response ⟨200, none, robotsBody⟩ ∧
      pyContains robotsBody "Disallow: /admin" = true ∧
      pyContains robotsBody "Disallow: /secret" = true ∧
      (siteInfoFinding titleNone "http://abc.onion"
        ⟨200, some "nginx", "<html></html>"⟩).ftype = "Site Info" :=
  ⟨rfl, rfl, rfl, rfl, rfl⟩

/-- C3, evaluated at the failing input: the base page fetch succeeds and
the network answers 200 at the configured common path /.git/config, yet
the crawl never fetches the resolved path URL (the fetch log holds only
the base URL) and emits no Exposed Path finding, because the loop body
that runs the common-path probe is never reached. -/
theorem C3_common_path_probe_never_runs :
    scanFinal ⟨netExposed, soupNone, titleNone, "http://abc.onion", 1, ["/.git/config"]⟩ 5 =
      Except.ok
        { findings := [siteInfoFinding titleNone "http://abc.onion" ⟨200, none, ""⟩],
          visited := ["http://abc.onion"], queue := [],
          fetchLog := ["http://abc.onion"], enqueued := ["http://abc.onion"] } ∧
      netExposed "http://abc.onion/.git/config" = FetchResult.response ⟨200, none, "[core]"⟩ ∧
      urljoin "http://abc.onion" "/.git/config" = "http://abc.onion/.git/config" ∧
      (siteInfoFinding titleNone "http://abc.onion" ⟨200, none, ""⟩).ftype = "Site Info" :=
  ⟨rfl, rfl, rfl, rfl⟩

/-- C4 counterexample: a fetch that receives an HTTP 404 response
returns a failure outcome (None), not a Success carrying the 404 —
`raise_for_status()` converts 4xx/5xx into an HTTPError that the
RequestException handler turns into None, refuting the claim that any
received response yields Success. -/
theorem C4_counterexample :
    netAll404 "http://abc.onion" = FetchResult.response ⟨404, none, "not found"⟩ ∧
      _fetch_url_tor netAll404 "http://abc.onion" = none :=
  ⟨rfl, rfl⟩

/-- C4 amended: a single fetch through the proxy returns a Success
outcome carrying the response exactly when the transport delivered a
response whose status lies outside [400, 600); an HTTP 4xx/5xx response
is converted into a failure outcome by `raise_for_status()`, and
transport-level faults also yield failure outcomes. -/
theorem C4_fetch_success_iff (net : String → FetchResult) (url : String) (r : HttpResponse) :
    _fetch_url_tor net url = some r ↔
      net url = FetchResult.response r ∧ (r.status < 400 ∨ 600 ≤ r.status) := by
  cases hn : net url with
  | response r2 =>
    have he : _fetch_url_tor net url =
        if (400 ≤ r2.status && r2.status < 600) = true then none else some r2 := by
      unfold _fetch_url_tor
      rw [hn]
    rw [he]
    by_cases hs : 400 ≤ r2.status ∧ r2.status < 600
    · rw [if_pos (by simp only [Bool.and_eq_true, decide_eq_true_eq]; exact hs)]
      constructor
      · intro hc
        exact Option.noConfusion hc
      · rintro ⟨hresp, hranges⟩
        obtain rfl := FetchResult.response.inj hresp
        exfalso
        omega
    · rw [if_neg (by simp only [Bool.and_eq_true, decide_eq_true_eq]; exact hs)]
      constructor
      · intro hc
        obtain rfl := Option.some.inj hc
        exact ⟨rfl, by omega⟩
      · rintro ⟨hresp, _⟩
        obtain rfl := FetchResult.response.inj hresp
        rfl
  | connectionError =>
    have he : _fetch_url_tor net url = none := by
      unfold _fetch_url_tor
      rw [hn]
    rw [he]
    constructor
    · intro hc
      exact Option.noConfusion hc
    · rintro ⟨hresp, _⟩
      exact FetchResult.noConfusion hresp
  | timeoutError =>
    have he : _fetch_url_tor net url = none := by
      unfold _fetch_url_tor
      rw [hn]
    rw [he]
    constructor
    · intro hc
      exact Option.noConfusion hc
    · rintro ⟨hresp, _⟩
      exact FetchResult.noConfusion hresp
  | requestError =>
    have he : _fetch_url_tor net url = none := by
      unfold _fetch_url_tor
      rw [hn]
    rw [he]
    constructor
    · intro hc
      exact Option.noConfusion hc
    · rintro ⟨hresp, _⟩
      exact FetchResult.noConfusion hresp
  | otherError =>
    have he : _fetch_url_tor net url = none := by
      unfold _fetch_url_tor
      rw [hn]
    rw [he]
    constructor
    · intro hc
      exact Option.noConfusion hc
    · rintro ⟨hresp, _⟩
      exact FetchResult.noConfusion hresp

/-- C5 counterexample: for the base http://abc.onion/x, the link
https://abc.onion/y is RETAINED (the code never compares the resolved
scheme with the base scheme), refuting the claim that it is dropped for
scheme mismatch; the link http://other.onion/y is dropped as the claim
says. -/
theorem C5_counterexample :
    extract_onion_links ["https://abc.onion/y", "http://other.onion/y"]
      "http://abc.onion/x" = ["https://abc.onion/y"] := rfl

/-- C5 amended: `extract_onion_links` retains exactly those hyperlinks
whose resolved host ends with the .onion suffix, equals the base URL's
host, and whose resolved scheme and host are non-empty — equality of
the resolved scheme with the base scheme is NOT required.  Retained
links appear canonicalized (rebuilt without query/fragment, trailing
slashes stripped). -/
theorem C5_retained_links_iff (hrefs : List String) (base_url l : String) :
    l ∈ extract_onion_links hrefs base_url ↔
      ∃ href ∈ hrefs,
        keepsLink (urlparse base_url "").netloc (urlparse (urljoin base_url href) "") = true ∧
        l = pyRstripSlash (clean_url (urlparse (urljoin base_url href) "")) := by
  unfold extract_onion_links
  rw [List.mem_dedup, List.mem_filterMap]
  constructor
  · rintro ⟨href, hh, hf⟩
    simp only at hf
    by_cases hk : keepsLink (urlparse base_url "").netloc
        (urlparse (urljoin base_url href) "") = true
    · rw [if_pos hk] at hf
      exact ⟨href, hh, hk, (Option.some.inj hf).symm⟩
    · rw [if_neg hk] at hf
      exact Option.noConfusion hf
  · rintro ⟨href, hh, hk, hl⟩
    refine ⟨href, hh, ?_⟩
    simp only
    rw [if_pos hk, hl]

/-- C6 counterexample: at the moment the seed is enqueued (line 63) the
Visited Set is empty, so the frontier holds a URL that is not in the
Visited Set — insertion into Visited does not happen at enqueue time. -/
theorem C6_counterexample :
    (initState "http://abc.onion").queue.map Prod.fst = ["http://abc.onion"] ∧
      (initState "http://abc.onion").visited = [] :=
  ⟨rfl, rfl⟩

/-- C6 amended: across one crawl's lifetime every URL is placed into the
frontier at most once (in every execution the stripped seed is the only
URL ever enqueued, so the frontier never holds duplicates), but a URL is
NOT inserted into the Visited Set at the moment it is enqueued: the seed
enters the frontier while Visited is still empty and is marked visited
only after the initial connectivity fetch succeeds (line 93); the
in-loop insertion at line 103 marks URLs at dequeue/fetch time. -/
theorem C6_frontier_at_most_once (P : ScanParams) (fuel : Nat) :
    ∃ st, scanFinal P fuel = Except.ok st ∧
      st.enqueued = [pyRstripSlash P.onion_url] ∧ st.enqueued.Nodup ∧
      (initState P.onion_url).visited = [] := by
  cases h : _fetch_url_tor P.net P.onion_url with
  | none =>
    exact ⟨_, scanFinal_failure P fuel h, rfl, List.nodup_singleton _, rfl⟩
  | some r =>
    exact ⟨_, scanFinal_success P fuel r h, rfl, List.nodup_singleton _, rfl⟩

/-- C7: if the initial connectivity fetch of the base URL fails
(connection failure, timeout, or any other fetch failure),
`scan_onion_site` terminates immediately with an empty findings list,
having attempted exactly one fetch — no main-loop iteration, no robots
probe and no common-path probe. -/
theorem C7_initial_failure_aborts (P : ScanParams) (fuel : Nat)
    (h : _fetch_url_tor P.net P.onion_url = none) :
    scan_onion_site P fuel = Except.ok [] ∧
      scanFinal P fuel = Except.ok
        { findings := [], visited := [],
          queue := [(pyRstripSlash P.onion_url, 0)],
          fetchLog := [P.onion_url],
          enqueued := [pyRstripSlash P.onion_url] } := by
  refine ⟨?_, scanFinal_failure P fuel h⟩
  unfold scan_onion_site
  rw [scanFinal_failure P fuel h]
  rfl

theorem C7_initial_failure_aborts_witness :
    _fetch_url_tor netDown "http://abc.onion" = none ∧
      (scan_onion_site ⟨netDown, soupNone, titleNone, "http://abc.onion", 1, ["/admin/"]⟩ 5 =
          Except.ok [] ∧
        scanFinal ⟨netDown, soupNone, titleNone, "http://abc.onion", 1, ["/admin/"]⟩ 5 =
          Except.ok
            { findings := [], visited := [],
              queue := [(pyRstripSlash "http://abc.onion", 0)],
              fetchLog := ["http://abc.onion"],
              enqueued := [pyRstripSlash "http://abc.onion"] }) :=
  ⟨rfl, C7_initial_failure_aborts
    ⟨netDown, soupNone, titleNone, "http://abc.onion", 1, ["/admin/"]⟩ 5 rfl⟩

/-- C8 counterexample: for the target http://abc.onion/p?q=1 the seeded
frontier entry keeps the query string — it is the target itself (only
`rstrip('/')` is applied at line 63), not the fully canonicalized
target http://abc.onion/p that the claim requires (query, fragment and
trailing slash all removed). -/
theorem C8_counterexample :
    (initState "http://abc.onion/p?q=1").queue = [("http://abc.onion/p?q=1", 0)] ∧
      canonicalize "http://abc.onion/p?q=1" = "http://abc.onion/p" ∧
      "http://abc.onion/p?q=1" ≠ "http://abc.onion/p" :=
  ⟨rfl, rfl, by decide⟩

/-- C8 amended: at crawl start the Visited Set is empty and the frontier
contains exactly one entry at depth 0: the base URL with trailing
slashes stripped — the query string and fragment are retained, not
removed as full canonicalization would do. -/
theorem C8_init_state (onion_url : String) :
    (initState onion_url).visited = [] ∧
      (initState onion_url).queue = [(pyRstripSlash onion_url, 0)] ∧
      (initState onion_url).findings = [] ∧
      (initState onion_url).fetchLog = [] :=
  ⟨rfl, rfl, rfl, rfl⟩

/-- C9 counterexample: canonicalization is not idempotent for all URLs.
For the scheme-less URL abc.onion/x one application yields
://abc.onion/x and a second yields ://://abc.onion/x; and for the
scheme-carrying URL http://abc.onion/x;p/ the first pass only strips
the trailing slash (the params marker `;p` sits in a non-final segment,
so urlparse does not remove it), while the second pass finds `;p` in
the last segment and drops it, yielding http://abc.onion/x — both
chains verified against CPython. -/
theorem C9_counterexample :
    canonicalize (canonicalize "abc.onion/x") ≠ canonicalize "abc.onion/x" ∧
      canonicalize "http://abc.onion/x;p/" = "http://abc.onion/x;p" ∧
      canonicalize "http://abc.onion/x;p" = "http://abc.onion/x" ∧
      canonicalize (canonicalize "http://abc.onion/x;p/") ≠
        canonicalize "http://abc.onion/x;p/" :=
  ⟨by decide, rfl, rfl, by decide⟩

/-- C9 amended: the canonicalization applied to every extracted link is
idempotent on every URL that carries an explicit scheme (urlparse finds
a non-empty scheme component) and whose parsed path contains no
semicolon, as with every semicolon-free absolute http/https URL; it
fails on scheme-less inputs and it can fail on paths carrying a `;`
params marker, as the counterexample shows. -/
theorem C9_canonicalize_idem (u : String) (h : (urlparse u "").scheme ≠ [])
    (hsemi : ';' ∉ (urlparse u "").path) :
    canonicalize (canonicalize u) = canonicalize u := by
  have h2 : canonicalize (canonicalize u) = String.mk (canonCore (canonCore u.data)) := rfl
  rw [h2, canonicalize_eq_core u]
  exact congrArg String.mk (canonCore_idem u.data h hsemi)

theorem C9_canonicalize_idem_witness :
    ((urlparse "http://abc.onion/x" "").scheme ≠ [] ∧
      ';' ∉ (urlparse "http://abc.onion/x" "").path) ∧
      canonicalize (canonicalize "http://abc.onion/x") = canonicalize "http://abc.onion/x" :=
  ⟨⟨by decide, by decide⟩,
    C9_canonicalize_idem "http://abc.onion/x" (by decide) (by decide)⟩

/-- C10: in every execution of `scan_onion_site` the robots-parsing
branch at line 127 is never reached (the loop body never runs for the
seeded entry, the only entry the frontier ever holds), so the crawl
never raises the NameError that evaluating `re.findall` with `re`
unbound would produce, and no execution emits a Robots.txt Disallowed
finding. -/
theorem C10_no_robots_finding (P : ScanParams) (fuel : Nat) :
    ∃ st, scanFinal P fuel = Except.ok st ∧
      ∀ f ∈ st.findings, f.ftype ≠ "Robots.txt Disallowed" := by
  cases h : _fetch_url_tor P.net P.onion_url with
  | none =>
    refine ⟨_, scanFinal_failure P fuel h, ?_⟩
    intro f hf
    cases hf
  | some r =>
    refine ⟨_, scanFinal_success P fuel r h, ?_⟩
    intro f hf
    rw [List.mem_singleton.mp hf]
    have hft : (siteInfoFinding P.getTitle P.onion_url r).ftype = "Site Info" := rfl
    rw [hft]
    intro hcontra
    exact absurd hcontra (by decide)

end LayerScanner
